import Mathlib

/-!
Verification of the swipe/undo/session state machine of the
paws-and-preferences app (src/src/App.tsx, src/src/type.ts).

The React component `App` keeps five pieces of session-relevant state:
`cats`, `likedCats`, `currentIndex`, `loading` and `history`
(App.tsx lines 12-24).  The animation value `x`, the transient
`exitDirection` and the `viewMode` toggle are renderer-local and never
feed back into the session state, so they are not part of the model.

Each event handler (`swipe`, `undoLast`, `resetApp`, and the two
outcomes of `fetchCats`) is embedded as a pure function on that state;
reachability of states under the render-site guards of the component is
an inductive predicate `Reachable`.
-/

namespace Paws

/-- Decision recorded in a history entry (App.tsx line 23:
`action: "like" | "dislike"`). -/
inductive Action where
  | like
  | dislike
deriving DecidableEq, Repr

/-- Swipe direction, the argument of `swipe` (App.tsx line 68:
`direction: "left" | "right"`). -/
inductive Direction where
  | left
  | right
deriving DecidableEq, Repr

/-- A raw record as returned by the cats API, mirroring the `Cat`
interface of src/src/type.ts before normalization: `_id` and `id` are
optional strings and `tags` may be absent (`tags?: string[]`). -/
structure RawCat where
  rawMainId : Option String
  rawFallbackId : Option String
  mimetype : String
  size : Int
  rawTags : Option (List String)
deriving DecidableEq, Repr

/-- A normalized candidate record as stored in the `cats` state after
`fetchCats` runs its `data.map` normalization (App.tsx lines 47-51):
`_id` holds `cat._id || cat.id` and `tags` is always a list. -/
structure Cat where
  _id : Option String
  id : Option String
  mimetype : String
  size : Int
  tags : List String
deriving DecidableEq, Repr

/-- One entry of the undo history (App.tsx lines 22-24):
`{ cat: Cat; action: "like" | "dislike" }`. -/
structure HistEntry where
  cat : Cat
  action : Action
deriving DecidableEq, Repr

/-- JavaScript `a || b` on two optional strings: `a` wins exactly when
it is truthy, i.e. present and nonempty (App.tsx line 49:
`_id: cat._id || cat.id`). -/
def jsOrString (a b : Option String) : Option String :=
  match a with
  | some s => if s = "" then b else some s
  | none => b

/-- Normalization applied to each fetched record (App.tsx lines 47-51):
`{...cat, _id: cat._id || cat.id, tags: Array.isArray(cat.tags) ? cat.tags : []}`. -/
def normalizeCat (r : RawCat) : Cat :=
  { _id := jsOrString r.rawMainId r.rawFallbackId
    id := r.rawFallbackId
    mimetype := r.mimetype
    size := r.size
    tags := r.rawTags.getD [] }

/-- The session-relevant component state of `App` (App.tsx lines 12-24). -/
@[ext]
structure AppState where
  cats : List Cat
  likedCats : List Cat
  currentIndex : Nat
  loading : Bool
  history : List HistEntry
deriving DecidableEq, Repr

/-- The state right after mounting: `useState` initializers at
App.tsx lines 12-24 (`cats = []`, `likedCats = []`, `currentIndex = 0`,
`loading = true`, `history = []`). -/
def initialState : AppState :=
  { cats := [], likedCats := [], currentIndex := 0, loading := true, history := [] }

/-- Handler `swipe(direction)` (App.tsx lines 68-88): reads
`cat = cats[currentIndex]`, appends `{cat, action}` to `history` with
`action = direction === "right" ? "like" : "dislike"`, appends `cat` to
`likedCats` when the direction is `right`, and increments
`currentIndex`.  Every call site guards `currentIndex < cats.length`
(the card at line 236 and the buttons at line 377 only render then), so
the out-of-range branch below is never taken; it totalizes the
function as the identity. -/
def swipe (s : AppState) (dir : Direction) : AppState :=
  match s.cats[s.currentIndex]? with
  | none => s
  | some cat =>
    { s with
      history := s.history ++
        [{ cat := cat
           action := if dir = Direction.right then Action.like else Action.dislike }]
      likedCats := if dir = Direction.right then s.likedCats ++ [cat] else s.likedCats
      currentIndex := s.currentIndex + 1 }

/-- Handler `resetApp` (App.tsx lines 90-94): clears `likedCats`, zeroes
`currentIndex` and calls `fetchCats`, whose first statement sets
`loading = true` (line 41).  It does NOT touch `history` or (yet)
`cats`; those change only when the new fetch resolves. -/
def resetApp (s : AppState) : AppState :=
  { s with likedCats := [], currentIndex := 0, loading := true }

/-- Handler `undoLast` (App.tsx lines 96-111): no-op when `history` is empty or
`currentIndex` is 0; otherwise reads the last history entry, decrements
`currentIndex`, and — when the undone action was a like — removes from
`likedCats` every cat `c` with `c._id === last.cat._id` (the `filter`
at line 106 keeps `c._id !== last.cat._id`); finally pops the entry
(`history.slice(0, -1)`).  The `none` branch of the match is dead: the
guard already ensures the history is nonempty. -/
def undoLast (s : AppState) : AppState :=
  if s.history.length = 0 ∨ s.currentIndex = 0 then s
  else
    match s.history.getLast? with
    | none => s
    | some last =>
      { s with
        currentIndex := s.currentIndex - 1
        likedCats :=
          if last.action = Action.like then
            s.likedCats.filter (fun c => decide (c._id ≠ last.cat._id))
          else s.likedCats
        history := s.history.dropLast }

/-- Successful resolution of the fetch started by `fetchCats`
(App.tsx lines 40-59): the normalized batch replaces `cats`
(`setCats(validCats)`) and the `finally` block clears `loading`. -/
def fetchSuccess (s : AppState) (data : List RawCat) : AppState :=
  { s with cats := data.map normalizeCat, loading := false }

/-- Failed resolution of the fetch started by `fetchCats`
(App.tsx lines 54-58): the `catch` block only logs, so `cats` is left
unchanged, and the `finally` block clears `loading`.  No error escapes
`fetchCats`; the handler is total. -/
def fetchFail (s : AppState) : AppState :=
  { s with loading := false }

/-- Derived display value `Math.max(0, currentIndex - likedCats.length)`
(App.tsx line 207). -/
def dislikedCount (s : AppState) : Int :=
  max 0 ((s.currentIndex : Int) - (s.likedCats.length : Int))

/-- States the component can actually be in, starting from
`initialState` and following the event handlers under the guards the
renderer imposes on their call sites:
* a pending fetch (`loading = true`, set at mount or by `resetApp`)
  resolves to `fetchSuccess` or `fetchFail`;
* `swipe` and `undoLast` fire from buttons/drags rendered only when
  `!loading && currentIndex < cats.length` (App.tsx lines 236, 377);
* `resetApp` fires from the summary screen, rendered only when
  `currentIndex >= cats.length && !loading && cats.length > 0`
  (App.tsx line 114). -/
inductive Reachable : AppState → Prop where
  | init : Reachable initialState
  | fetchOk {s : AppState} (data : List RawCat) :
      Reachable s → s.loading = true → Reachable (fetchSuccess s data)
  | fetchErr {s : AppState} :
      Reachable s → s.loading = true → Reachable (fetchFail s)
  | doSwipe {s : AppState} (dir : Direction) :
      Reachable s → s.loading = false → s.currentIndex < s.cats.length →
      Reachable (swipe s dir)
  | doUndo {s : AppState} :
      Reachable s → s.loading = false → s.currentIndex < s.cats.length →
      Reachable (undoLast s)
  | doReset {s : AppState} :
      Reachable s → s.loading = false → s.cats.length ≤ s.currentIndex →
      0 < s.cats.length → Reachable (resetApp s)

/-- Same machine with `resetApp` removed from the event set: states
reachable from boot using only fetch resolution, `swipe` and
`undoLast`. -/
inductive ReachableNR : AppState → Prop where
  | init : ReachableNR initialState
  | fetchOk {s : AppState} (data : List RawCat) :
      ReachableNR s → s.loading = true → ReachableNR (fetchSuccess s data)
  | fetchErr {s : AppState} :
      ReachableNR s → s.loading = true → ReachableNR (fetchFail s)
  | doSwipe {s : AppState} (dir : Direction) :
      ReachableNR s → s.loading = false → s.currentIndex < s.cats.length →
      ReachableNR (swipe s dir)
  | doUndo {s : AppState} :
      ReachableNR s → s.loading = false → s.currentIndex < s.cats.length →
      ReachableNR (undoLast s)

/-- The cats recorded with a `like` decision in a stretch of history, in
order.  `likedCats` is rebuilt from such entries by `swipe`/`undoLast`. -/
def likesOf (l : List HistEntry) : List Cat :=
  (l.filter fun e => decide (e.action = Action.like)).map fun e => e.cat

/-- Reachability invariant tying the five state fields together.  The
history splits into a stale part (entries orphaned by `resetApp`, which
does not clear `history`) followed by a live part that mirrors the
first `currentIndex` candidates in order.  `likedCats` is always a
sublist of the live like-entries, and equals them exactly whenever the
current batch has pairwise-distinct `_id`s. -/
def Inv (s : AppState) : Prop :=
  s.currentIndex ≤ s.cats.length ∧
  (s.loading = true → s.currentIndex = 0 ∧ s.likedCats = []) ∧
  ∃ stale live : List HistEntry,
    s.history = stale ++ live ∧
    live.length = s.currentIndex ∧
    live.map (fun e => e.cat) = s.cats.take s.currentIndex ∧
    s.likedCats.Sublist (likesOf live) ∧
    ((s.cats.map fun c => c._id).Nodup → s.likedCats = likesOf live)

/-- The swipe direction that records a given decision
(`"right"` records `like`, `"left"` records `dislike`, App.tsx line 76). -/
def directionOf : Action → Direction
  | Action.like => Direction.right
  | Action.dislike => Direction.left

/-- A sample raw API record used for concrete witness states. -/
def rawA : RawCat :=
  { rawMainId := some "cat-a", rawFallbackId := none, mimetype := "image/jpeg",
    size := 10, rawTags := some ["tabby"] }

/-- The sample record after `fetchCats` normalization. -/
def catA : Cat := normalizeCat rawA

/-- State after the boot fetch resolves with the one-cat batch `[rawA]`. -/
def sLoaded : AppState := fetchSuccess initialState [rawA]

/-- State after liking the only cat of `sLoaded` (summary screen shown). -/
def sSwiped : AppState := swipe sLoaded Direction.right

/-- State right after pressing Start Over on that summary screen; the
refetch is still in flight. -/
def sReset : AppState := resetApp sSwiped

/-- State after the boot fetch resolves with a batch containing the same
record twice (the provider may yield duplicate ids; App.tsx does not
deduplicate). -/
def sDupLoaded : AppState := fetchSuccess initialState [rawA, rawA]

/-- State `sDupLoaded` after one like. -/
def sDup1 : AppState := swipe sDupLoaded Direction.right

/-- State `sDupLoaded` after two likes: both duplicate cats are in `likedCats`. -/
def sDup2 : AppState := swipe sDup1 Direction.right

theorem likesOf_append (a b : List HistEntry) :
    likesOf (a ++ b) = likesOf a ++ likesOf b := by
  simp [likesOf, List.filter_append]

theorem likesOf_single_like (c : Cat) :
    likesOf [{ cat := c, action := Action.like }] = [c] := by
  simp [likesOf]

theorem likesOf_single_dislike (c : Cat) :
    likesOf [{ cat := c, action := Action.dislike }] = [] := by
  simp [likesOf]

theorem likesOf_sublist_map (l : List HistEntry) :
    (likesOf l).Sublist (l.map fun e => e.cat) := by
  unfold likesOf
  exact (List.filter_sublist l).map fun e => e.cat

theorem likesOf_length_le (l : List HistEntry) :
    (likesOf l).length ≤ l.length := by
  simpa [likesOf] using List.length_filter_le _ l

/-- Unfolding of `swipe` at an in-range cursor. -/
theorem swipe_eq {s : AppState} (h : s.currentIndex < s.cats.length)
    (dir : Direction) :
    swipe s dir = { s with
      history := s.history ++
        [{ cat := s.cats[s.currentIndex]
           action := if dir = Direction.right then Action.like else Action.dislike }]
      likedCats := if dir = Direction.right
        then s.likedCats ++ [s.cats[s.currentIndex]] else s.likedCats
      currentIndex := s.currentIndex + 1 } := by
  unfold swipe
  rw [List.getElem?_eq_getElem h]

/-- Unfolding of `undoLast` when both internal guards pass. -/
theorem undoLast_eq {s : AppState} {e : HistEntry}
    (hg : ¬(s.history.length = 0 ∨ s.currentIndex = 0))
    (hl : s.history.getLast? = some e) :
    undoLast s = { s with
      currentIndex := s.currentIndex - 1
      likedCats :=
        if e.action = Action.like then
          s.likedCats.filter (fun c => decide (c._id ≠ e.cat._id))
        else s.likedCats
      history := s.history.dropLast } := by
  unfold undoLast
  rw [if_neg hg, hl]

theorem inv_initialState : Inv initialState := by
  refine ⟨Nat.le_refl _, fun _ => ⟨rfl, rfl⟩, [], [], rfl, rfl, rfl, List.Sublist.refl _, fun _ => rfl⟩

theorem inv_fetchSuccess {s : AppState} (h : Inv s) (hld : s.loading = true)
    (data : List RawCat) : Inv (fetchSuccess s data) := by
  obtain ⟨-, hload, -⟩ := h
  obtain ⟨hc0, hlk0⟩ := hload hld
  refine ⟨?_, ?_, s.history, [], ?_, ?_, ?_, ?_, ?_⟩ <;>
    simp [fetchSuccess, hc0, hlk0, likesOf]

theorem inv_fetchFail {s : AppState} (h : Inv s) (hld : s.loading = true) :
    Inv (fetchFail s) := by
  obtain ⟨-, hload, -⟩ := h
  obtain ⟨hc0, hlk0⟩ := hload hld
  refine ⟨?_, ?_, s.history, [], ?_, ?_, ?_, ?_, ?_⟩ <;>
    simp [fetchFail, hc0, hlk0, likesOf]

theorem inv_resetApp {s : AppState} (_h : Inv s) : Inv (resetApp s) := by
  refine ⟨?_, ?_, s.history, [], ?_, ?_, ?_, ?_, ?_⟩ <;>
    simp [resetApp, likesOf]

theorem inv_swipe {s : AppState} (h : Inv s) (hld : s.loading = false)
    (hlt : s.currentIndex < s.cats.length) (dir : Direction) :
    Inv (swipe s dir) := by
  obtain ⟨hle, -, stale, live, hh, hlen, hmap, hsub, hnd⟩ := h
  rw [swipe_eq hlt]
  refine ⟨hlt, by simp [hld], stale,
    live ++ [{ cat := s.cats[s.currentIndex]
               action := if dir = Direction.right then Action.like else Action.dislike }],
    by simp [hh], by simp [hlen], ?_, ?_, ?_⟩
  · simp only [List.map_append, hmap, List.map_cons, List.map_nil]
    rw [List.take_succ, List.getElem?_eq_getElem hlt]
    rfl
  · cases dir
    · simpa [likesOf_append, likesOf_single_dislike] using hsub
    · simpa [likesOf_append, likesOf_single_like] using
        hsub.append (List.Sublist.refl [s.cats[s.currentIndex]])
  · intro hnodup
    have he : s.likedCats = likesOf live := hnd (by simpa using hnodup)
    cases dir
    · simpa [likesOf_append, likesOf_single_dislike] using he
    · simp [likesOf_append, likesOf_single_like, he]

theorem likesOf_single (e : HistEntry) :
    likesOf [e] = if e.action = Action.like then [e.cat] else [] := by
  cases h : e.action <;> simp [likesOf, h]

/-- In a duplicate-free list, an element of the length-`n` prefix never
equals the element at position `n`. -/
theorem nodup_take_ne_getElem {α : Type} {l : List α} {n : Nat}
    (hnd : l.Nodup) (hn : n < l.length) {x : α} (hx : x ∈ l.take n) :
    x ≠ l[n] := by
  obtain ⟨i, hi, hieq⟩ := List.getElem_of_mem hx
  have hin : i < n := by
    have h2 := hi
    rw [List.length_take] at h2
    exact lt_of_lt_of_le h2 (min_le_left _ _)
  rw [List.getElem_take] at hieq
  have hil : i < l.length := Nat.lt_trans hin hn
  intro hcon
  have hgl : l[i] = l[n] := by rw [hieq, hcon]
  have : i = n := hnd.getElem_inj_iff.mp hgl
  omega

/-- Anatomy of a state satisfying `Inv` with a positive cursor: the
history ends in a live entry `e` whose cat is the candidate just before
the cursor, and `undoLast` pops exactly that entry. -/
theorem undo_analysis {s : AppState} (h : Inv s) {n : Nat}
    (hc : s.currentIndex = n + 1) :
    ∃ (stale dl : List HistEntry) (e : HistEntry) (hn : n < s.cats.length),
      s.history = (stale ++ dl) ++ [e] ∧
      s.history.getLast? = some e ∧
      dl.length = n ∧
      dl.map (fun x => x.cat) = s.cats.take n ∧
      e.cat = s.cats[n] ∧
      s.likedCats.Sublist (likesOf dl ++ likesOf [e]) ∧
      ((s.cats.map fun c => c._id).Nodup → s.likedCats = likesOf dl ++ likesOf [e]) ∧
      undoLast s = { s with
        currentIndex := n
        likedCats :=
          if e.action = Action.like then
            s.likedCats.filter (fun c => decide (c._id ≠ e.cat._id))
          else s.likedCats
        history := stale ++ dl } := by
  obtain ⟨hle, -, stale, live, hh, hlen, hmap, hsub, hnd⟩ := h
  have hn : n < s.cats.length := by omega
  have hlive_len : live.length = n + 1 := by rw [hlen, hc]
  obtain ⟨dl, e, hlive⟩ : ∃ dl e, live = dl ++ [e] := by
    rcases List.eq_nil_or_concat live with h2 | ⟨dl, e, h2⟩
    · rw [h2] at hlive_len
      simp at hlive_len
    · exact ⟨dl, e, by simpa [List.concat_eq_append] using h2⟩
  subst hlive
  have hdlen : dl.length = n := by
    simp at hlive_len
    omega
  have hh2 : s.history = (stale ++ dl) ++ [e] := by
    rw [hh, List.append_assoc]
  have hlast : s.history.getLast? = some e := by
    rw [hh2]
    exact List.getLast?_concat _
  have htake : s.cats.take (n + 1) = s.cats.take n ++ [s.cats[n]] := by
    rw [List.take_succ, List.getElem?_eq_getElem hn]
    rfl
  have hmap2 : dl.map (fun x => x.cat) ++ [e.cat] = s.cats.take n ++ [s.cats[n]] := by
    have h3 : (dl ++ [e]).map (fun x => x.cat) = s.cats.take (n + 1) := by
      rw [hmap, hc]
    rw [← htake, ← h3]
    simp
  have hsplit := List.append_inj' hmap2 rfl
  have hdmap : dl.map (fun x => x.cat) = s.cats.take n := hsplit.1
  have hecat : e.cat = s.cats[n] := by
    have h4 := hsplit.2
    simpa using h4
  have hg : ¬(s.history.length = 0 ∨ s.currentIndex = 0) := by
    rw [hh2, hc]
    simp
  have hundo := undoLast_eq hg hlast
  refine ⟨stale, dl, e, hn, hh2, hlast, hdlen, hdmap, hecat, ?_, ?_, ?_⟩
  · simpa [likesOf_append] using hsub
  · intro hnodup
    simpa [likesOf_append] using hnd hnodup
  · rw [hundo, hh2, hc]
    simp

/-- When the current batch has pairwise-distinct identifiers, the
id-based removal performed by an undo of the like at position `n` does
not disturb the likes recorded for the first `n` candidates. -/
theorem filter_likesOf_eq {s : AppState} {dl : List HistEntry} {n : Nat}
    (hnodup : (s.cats.map fun c => c._id).Nodup) (hn : n < s.cats.length)
    (hdmap : dl.map (fun x => x.cat) = s.cats.take n) :
    (likesOf dl).filter (fun c => decide (c._id ≠ s.cats[n]._id)) = likesOf dl := by
  apply List.filter_eq_self.mpr
  intro x hx
  have hx2 : x ∈ dl.map (fun y => y.cat) := (likesOf_sublist_map dl).subset hx
  rw [hdmap] at hx2
  have hxid : x._id ∈ (s.cats.map fun c => c._id).take n := by
    rw [← List.map_take]
    exact List.mem_map_of_mem _ hx2
  have hn2 : n < (s.cats.map fun c => c._id).length := by simpa using hn
  have hne2 : x._id ≠ (s.cats.map fun c => c._id)[n] :=
    nodup_take_ne_getElem hnodup hn2 hxid
  rw [List.getElem_map] at hne2
  simpa using hne2

theorem inv_undo {s : AppState} (h : Inv s) (hld : s.loading = false) :
    Inv (undoLast s) := by
  by_cases hg : s.history.length = 0 ∨ s.currentIndex = 0
  · unfold undoLast
    rw [if_pos hg]
    exact h
  · have hc0 : s.currentIndex ≠ 0 := fun hcon => hg (Or.inr hcon)
    obtain ⟨n, hc⟩ := Nat.exists_eq_succ_of_ne_zero hc0
    obtain ⟨stale, dl, e, hn, hh2, hlast, hdlen, hdmap, hecat, hsub2, hnd2, hundo⟩ :=
      undo_analysis h hc
    rw [hundo]
    refine ⟨Nat.le_of_lt hn, by simp [hld], stale, dl, rfl, hdlen, hdmap, ?_, ?_⟩
    · cases hea : e.action
      · -- like
        simp only [hea, likesOf_single, if_pos] at hsub2
        simp only [hea]
        simp only [if_pos]
        have h1 := hsub2.filter (fun c => decide (c._id ≠ e.cat._id))
        rw [List.filter_append] at h1
        have h2 : [e.cat].filter (fun c => decide (c._id ≠ e.cat._id)) = [] := by simp
        rw [h2, List.append_nil] at h1
        exact h1.trans (List.filter_sublist _)
      · -- dislike
        simp only [hea, likesOf_single] at hsub2
        simp only [hea]
        simpa using hsub2
    · intro hnodup
      have hnodup2 : (s.cats.map fun c => c._id).Nodup := by simpa using hnodup
      have he := hnd2 hnodup2
      cases hea : e.action
      · -- like
        simp only [hea, likesOf_single, if_pos] at he
        simp only [hea]
        simp only [if_pos]
        rw [he, List.filter_append]
        have h2 : [e.cat].filter (fun c => decide (c._id ≠ e.cat._id)) = [] := by simp
        rw [h2, List.append_nil, hecat]
        exact filter_likesOf_eq hnodup2 hn hdmap
      · -- dislike
        simp only [hea, likesOf_single] at he
        simp only [hea]
        simpa using he

/-- Every reachable component state satisfies the structural invariant. -/
theorem reachable_inv {s : AppState} (h : Reachable s) : Inv s := by
  induction h with
  | init => exact inv_initialState
  | fetchOk data hr hld ih => exact inv_fetchSuccess ih hld data
  | fetchErr hr hld ih => exact inv_fetchFail ih hld
  | doSwipe dir hr hld hlt ih => exact inv_swipe ih hld hlt dir
  | doUndo hr hld hlt ih => exact inv_undo ih hld
  | doReset hr hld hge hpos ih => exact inv_resetApp ih

/-- Without `resetApp` in the event set, the history length always
tracks the cursor exactly. -/
theorem nr_hist_len {s : AppState} (h : ReachableNR s) :
    s.history.length = s.currentIndex := by
  induction h with
  | init => rfl
  | fetchOk data hr hld ih => simpa [fetchSuccess] using ih
  | fetchErr hr hld ih => simpa [fetchFail] using ih
  | @doSwipe s dir hr hld hlt ih =>
      rw [swipe_eq hlt]
      simp [ih]
  | @doUndo s hr hld hlt ih =>
      by_cases hg : s.history.length = 0 ∨ s.currentIndex = 0
      · unfold undoLast
        rw [if_pos hg]
        exact ih
      · have hne : s.history ≠ [] := by
          intro h0
          exact hg (Or.inl (by simp [h0]))
        obtain ⟨e, he⟩ := Option.isSome_iff_exists.mp (List.getLast?_isSome.mpr hne)
        rw [undoLast_eq hg he]
        simp [ih]

/-- Round-trip: in an invariant state with distinct candidate ids and a
positive cursor, `undoLast` followed by a swipe in the direction of the
undone decision restores the full state. -/
theorem undo_swipe_roundtrip {s : AppState} (hinv : Inv s)
    (hnodup : (s.cats.map fun c => c._id).Nodup)
    {n : Nat} (hc : s.currentIndex = n + 1)
    {e : HistEntry} (hl : s.history.getLast? = some e) :
    swipe (undoLast s) (directionOf e.action) = s := by
  obtain ⟨stale, dl, e2, hn, hh2, hlast, hdlen, hdmap, hecat, hsub2, hnd2, hundo⟩ :=
    undo_analysis hinv hc
  rw [hl] at hlast
  obtain rfl : e2 = e := by
    injection hlast with h3
    exact h3.symm
  have hliked := hnd2 hnodup
  rw [hundo]
  cases hea : e2.action
  · -- like: the undone entry was a like, so we re-swipe right
    have hliked2 : s.likedCats = likesOf dl ++ [s.cats[n]] := by
      rw [hliked, likesOf_single, hea]
      simp [hecat]
    simp only [hea, directionOf]
    rw [swipe_eq hn]
    refine AppState.ext rfl ?_ ?_ rfl ?_
    · simp only [hea]
      simp only [if_true]
      rw [hecat, hliked2, List.filter_append]
      have h2 : [s.cats[n]].filter (fun c => decide (c._id ≠ s.cats[n]._id)) = [] := by simp
      rw [h2, List.append_nil, filter_likesOf_eq hnodup hn hdmap]
    · exact hc.symm
    · rw [hh2]
      have he2 : e2 = { cat := s.cats[n], action := Action.like } := by
        obtain ⟨c2, a2⟩ := e2
        simp only [HistEntry.mk.injEq]
        exact ⟨hecat, hea⟩
      simp [he2]
  · -- dislike: the undone entry was a dislike, so we re-swipe left
    simp only [hea, directionOf]
    rw [swipe_eq hn]
    refine AppState.ext rfl ?_ ?_ rfl ?_
    · simp only [hea]
      rw [if_neg (show ¬(Direction.left = Direction.right) by decide),
          if_neg (show ¬(Action.dislike = Action.like) by decide)]
    · exact hc.symm
    · rw [hh2]
      have he2 : e2 = { cat := s.cats[n], action := Action.dislike } := by
        obtain ⟨c2, a2⟩ := e2
        simp only [HistEntry.mk.injEq]
        exact ⟨hecat, hea⟩
      simp [he2]

theorem reachable_sLoaded : Reachable sLoaded :=
  Reachable.fetchOk [rawA] Reachable.init rfl

theorem reachable_sSwiped : Reachable sSwiped :=
  Reachable.doSwipe Direction.right reachable_sLoaded (by decide) (by decide)

theorem reachable_sReset : Reachable sReset :=
  Reachable.doReset reachable_sSwiped (by decide) (by decide) (by decide)

theorem reachableNR_sSwiped : ReachableNR sSwiped :=
  ReachableNR.doSwipe Direction.right
    (ReachableNR.fetchOk [rawA] ReachableNR.init rfl) (by decide) (by decide)

theorem reachable_sDup2 : Reachable sDup2 :=
  Reachable.doSwipe Direction.right
    (Reachable.doSwipe Direction.right
      (Reachable.fetchOk [rawA, rawA] Reachable.init rfl)
      (by decide) (by decide))
    (by decide) (by decide)

/-- C1 (counterexample): in the reachable state `sSwiped` (one cat
liked, summary screen shown), pressing Start Over leaves the old
history entry in place, so `reset()` does not yield `history == []`. -/
theorem C1_counterexample :
    Reachable sSwiped ∧ (resetApp sSwiped).history ≠ [] :=
  ⟨reachable_sSwiped, by decide⟩

/-- C1 (amended): for every state, `resetApp` yields `cursor == 0` and
`liked == ∅` and sets the loading flag for the fresh fetch, but leaves
`history` (and, until the fetch resolves, `cats`) unchanged. -/
theorem C1_reset_effect (s : AppState) :
    (resetApp s).currentIndex = 0 ∧ (resetApp s).likedCats = [] ∧
    (resetApp s).history = s.history ∧ (resetApp s).cats = s.cats ∧
    (resetApp s).loading = true :=
  ⟨rfl, rfl, rfl, rfl, rfl⟩

/-- C2 (counterexample): the reachable state `sReset` (Start Over
pressed after one swipe) has a one-entry history but cursor 0, so
`len(history) == cursor` fails once `reset` is among the operations. -/
theorem C2_counterexample :
    Reachable sReset ∧ sReset.history.length ≠ sReset.currentIndex :=
  ⟨reachable_sReset, by decide⟩

/-- C2 (amended): in every reachable state the cursor never exceeds the
history length, and the two are equal in every state reachable without
`reset` (which orphans history entries instead of clearing them). -/
theorem C2_history_length_cursor (s : AppState) :
    (Reachable s → s.currentIndex ≤ s.history.length) ∧
    (ReachableNR s → s.history.length = s.currentIndex) := by
  constructor
  · intro h
    obtain ⟨-, -, stale, live, hh, hlen, -, -, -⟩ := reachable_inv h
    rw [hh, List.length_append, hlen]
    omega
  · exact nr_hist_len

theorem C2_history_length_cursor_witness :
    sSwiped.currentIndex ≤ sSwiped.history.length ∧
    sSwiped.history.length = sSwiped.currentIndex :=
  ⟨(C2_history_length_cursor sSwiped).1 reachable_sSwiped,
   (C2_history_length_cursor sSwiped).2 reachableNR_sSwiped⟩

/-- C3: when `cursor < len(candidates)`, `swipe(direction)` appends
`(candidates[cursor], like|dislike)` to history, appends the candidate
to `likedCats` exactly when the direction is a like (right), increments
the cursor by 1, and changes neither `cats` nor `loading`. -/
theorem C3_swipe_effect (s : AppState) (dir : Direction)
    (h : s.currentIndex < s.cats.length) :
    (swipe s dir).history = s.history ++
      [{ cat := s.cats[s.currentIndex]
         action := if dir = Direction.right then Action.like else Action.dislike }] ∧
    (swipe s dir).likedCats = (if dir = Direction.right
      then s.likedCats ++ [s.cats[s.currentIndex]] else s.likedCats) ∧
    (swipe s dir).currentIndex = s.currentIndex + 1 ∧
    (swipe s dir).cats = s.cats ∧
    (swipe s dir).loading = s.loading := by
  rw [swipe_eq h]
  exact ⟨rfl, rfl, rfl, rfl, rfl⟩

theorem C3_swipe_effect_witness :
    sLoaded.currentIndex < sLoaded.cats.length ∧
    (swipe sLoaded Direction.right).currentIndex = sLoaded.currentIndex + 1 ∧
    (swipe sLoaded Direction.right).cats = sLoaded.cats ∧
    (swipe sLoaded Direction.right).loading = sLoaded.loading :=
  ⟨by decide, (C3_swipe_effect sLoaded Direction.right (by decide)).2.2⟩

/-- C4 (counterexample): with the duplicate-id batch `[rawA, rawA]`
(reachable, since the provider may yield duplicates and the code does
not deduplicate), after two likes the state `sDup2` has
`likedCats = [catA, catA]`; undoing the like and re-swiping right
leaves only one copy, so the prior `liked` is not restored. -/
theorem C4_counterexample :
    Reachable sDup2 ∧ 0 < sDup2.currentIndex ∧
    sDup2.history.getLast? = some { cat := catA, action := Action.like } ∧
    (swipe (undoLast sDup2) (directionOf Action.like)).likedCats ≠ sDup2.likedCats :=
  ⟨reachable_sDup2, by decide, by decide, by decide⟩

/-- C4 (amended): for every reachable state with `cursor > 0` whose
current batch has pairwise-distinct identifiers, `undo()` followed by a
swipe in the direction of the undone entry's decision restores the full
prior state (in particular the `(cursor, liked, history)` triple). -/
theorem C4_undo_swipe_restores (s : AppState) (h : Reachable s)
    (hnodup : (s.cats.map fun c => c._id).Nodup)
    (hc : 0 < s.currentIndex) (e : HistEntry)
    (hl : s.history.getLast? = some e) :
    swipe (undoLast s) (directionOf e.action) = s := by
  obtain ⟨n, hn⟩ := Nat.exists_eq_succ_of_ne_zero (Nat.pos_iff_ne_zero.mp hc)
  exact undo_swipe_roundtrip (reachable_inv h) hnodup hn hl

theorem C4_undo_swipe_restores_witness :
    0 < sSwiped.currentIndex ∧
    swipe (undoLast sSwiped) (directionOf Action.like) = sSwiped :=
  ⟨by decide,
   C4_undo_swipe_restores sSwiped reachable_sSwiped (by decide) (by decide)
     { cat := catA, action := Action.like } (by decide)⟩

/-- C5: `undoLast` called with an empty history is a no-op: the whole
state (in particular `cats`, `currentIndex`, `likedCats`, `history`) is
unchanged. -/
theorem C5_undo_empty_history_noop (s : AppState) (h : s.history = []) :
    undoLast s = s := by
  unfold undoLast
  rw [if_pos (Or.inl (by rw [h]; rfl))]

theorem C5_undo_empty_history_noop_witness :
    sLoaded.history = [] ∧ undoLast sLoaded = sLoaded :=
  ⟨rfl, C5_undo_empty_history_noop sLoaded rfl⟩

/-- C6: in every reachable state `likedCount ≤ cursor`, so the clamped
display value `dislikedCount = max(0, cursor - likedCount)` satisfies
`likedCount + dislikedCount == cursor` and the clamp never engages. -/
theorem C6_counts_invariant (s : AppState) (h : Reachable s) :
    s.likedCats.length ≤ s.currentIndex ∧
    (s.likedCats.length : Int) + dislikedCount s = (s.currentIndex : Int) := by
  obtain ⟨-, -, stale, live, hh, hlen, hmap, hsub, -⟩ := reachable_inv h
  have h2 := hsub.length_le
  have h3 := likesOf_length_le live
  have h1 : s.likedCats.length ≤ s.currentIndex := by omega
  refine ⟨h1, ?_⟩
  unfold dislikedCount
  have h4 : (0 : Int) ≤ (s.currentIndex : Int) - (s.likedCats.length : Int) := by
    omega
  rw [max_eq_right h4]
  omega

theorem C6_counts_invariant_witness :
    sSwiped.likedCats.length ≤ sSwiped.currentIndex ∧
    (sSwiped.likedCats.length : Int) + dislikedCount sSwiped =
      (sSwiped.currentIndex : Int) :=
  C6_counts_invariant sSwiped reachable_sSwiped

/-- C7: in every reachable state `0 ≤ cursor ≤ len(candidates)` (the
lower bound is inherent to the `Nat` cursor, matching the `undo` guard
which never lets it go below 0); moreover `swipe` never decreases the
cursor and `undoLast` never increases it. -/
theorem C7_cursor_bounds (s : AppState) (h : Reachable s) :
    s.currentIndex ≤ s.cats.length ∧
    (∀ dir : Direction, s.currentIndex ≤ (swipe s dir).currentIndex) ∧
    (undoLast s).currentIndex ≤ s.currentIndex := by
  refine ⟨(reachable_inv h).1, ?_, ?_⟩
  · intro dir
    unfold swipe
    cases hg : s.cats[s.currentIndex]?
    · exact Nat.le_refl _
    · exact Nat.le_succ _
  · unfold undoLast
    by_cases hg : s.history.length = 0 ∨ s.currentIndex = 0
    · rw [if_pos hg]
    · rw [if_neg hg]
      cases hg2 : s.history.getLast?
      · exact Nat.le_refl _
      · exact Nat.sub_le _ _

theorem C7_cursor_bounds_witness :
    sSwiped.currentIndex ≤ sSwiped.cats.length ∧
    (∀ dir : Direction, sSwiped.currentIndex ≤ (swipe sSwiped dir).currentIndex) ∧
    (undoLast sSwiped).currentIndex ≤ sSwiped.currentIndex :=
  C7_cursor_bounds sSwiped reachable_sSwiped

/-- C8 (counterexample): a fetch failure does not always leave the
candidate list empty: in the reachable in-flight state `sReset`
(Start Over pressed after a session over the batch `[rawA]`), the
`catch` branch leaves the previous non-empty batch in `cats`. -/
theorem C8_counterexample :
    Reachable sReset ∧ sReset.loading = true ∧ (fetchFail sReset).cats ≠ [] :=
  ⟨reachable_sReset, rfl, by decide⟩

/-- C8 (amended): when the batch fetch fails, the handler leaves `cats`
unchanged (hence still empty when the failure happens on the initial
load, where `cats = []`), clears the loading flag, changes no other
session state, and returns normally (the handler is a total function;
the `catch` block swallows the error). -/
theorem C8_fetch_failure (s : AppState) :
    (fetchFail s).cats = s.cats ∧ (fetchFail s).loading = false ∧
    (fetchFail s).likedCats = s.likedCats ∧
    (fetchFail s).currentIndex = s.currentIndex ∧
    (fetchFail s).history = s.history :=
  ⟨rfl, rfl, rfl, rfl, rfl⟩

/-- C9: when `cursor == 0`, `undoLast` is a no-op even if the history is
non-empty, because the guard `history.length === 0 || currentIndex === 0`
fires; stale history entries surviving a reset can never be popped. -/
theorem C9_undo_cursor_zero_noop (s : AppState) (h : s.currentIndex = 0) :
    undoLast s = s := by
  unfold undoLast
  rw [if_pos (Or.inr h)]

theorem C9_undo_cursor_zero_noop_witness :
    sReset.currentIndex = 0 ∧ sReset.history ≠ [] ∧ undoLast sReset = sReset :=
  ⟨rfl, by decide, C9_undo_cursor_zero_noop sReset rfl⟩

/-- C10: undoing a like filters `likedCats` by identifier, removing
every entry whose `_id` equals the undone candidate's `_id` (not just
one): afterwards no cat with that identifier remains in `likedCats`. -/
theorem C10_undo_like_removes_all (s : AppState) (e : HistEntry)
    (hc : s.currentIndex ≠ 0) (hl : s.history.getLast? = some e)
    (ha : e.action = Action.like) :
    (undoLast s).likedCats =
      s.likedCats.filter (fun c => decide (c._id ≠ e.cat._id)) ∧
    ∀ c ∈ (undoLast s).likedCats, c._id ≠ e.cat._id := by
  have hg : ¬(s.history.length = 0 ∨ s.currentIndex = 0) := by
    intro hor
    rcases hor with h0 | h0
    · rw [List.length_eq_zero] at h0
      rw [h0] at hl
      simp at hl
    · exact hc h0
  rw [undoLast_eq hg hl]
  simp only [ha]
  simp only [if_true]
  refine ⟨trivial, ?_⟩
  intro c hcmem
  rw [List.mem_filter] at hcmem
  simpa using hcmem.2

theorem C10_undo_like_removes_all_witness :
    sDup2.likedCats.length = 2 ∧ (undoLast sDup2).likedCats = [] ∧
    (∀ c ∈ (undoLast sDup2).likedCats, c._id ≠ catA._id) :=
  ⟨by decide, by decide,
   (C10_undo_like_removes_all sDup2 { cat := catA, action := Action.like }
     (by decide) (by decide) rfl).2⟩

end Paws
